import Mathlib

/-!
Verification development for the repository's layered filesystem core
(content-addressed tracking, composite workspace/cache views, sub-repository
traversal) and the import-stage update routine.

The filesystem views themselves (`RepoFileSystem`, `DvcFileSystem`, the hash
staging engine and the sub-repository registry) are not part of the source
tree under verification: only their unit tests are.  They are therefore
modelled here from the specification, with every concrete value (contents,
digests, listings) taken from the unit tests, which pin the observable
behaviour.  `update_import` is embedded directly from `dvc/stage/imports.py`.
-/

namespace Dvc

/-- A path relative to the repository root, as a list of segments. -/
abbrev RPath := List String

/-- Boolean prefix test on paths (segment-wise). -/
def pfx : RPath → RPath → Bool
  | [], _ => true
  | _ :: _, [] => false
  | a :: as, b :: bs => decide (a = b) && pfx as bs

theorem pfx_refl (p : RPath) : pfx p p = true := by
  induction p with
  | nil => rfl
  | cons a as ih => simp [pfx, ih]

theorem pfx_iff (a b : RPath) : pfx a b = true ↔ ∃ t, a ++ t = b := by
  induction a generalizing b with
  | nil => simp [pfx]
  | cons x xs ih =>
    cases b with
    | nil =>
      simp [pfx]
    | cons y ys =>
      simp only [pfx, Bool.and_eq_true, decide_eq_true_eq, ih]
      constructor
      · rintro ⟨hxy, t, ht⟩
        exact ⟨t, by simp [hxy, ht]⟩
      · rintro ⟨t, ht⟩
        simp only [List.cons_append, List.cons.injEq] at ht
        exact ⟨ht.1, t, ht.2⟩

/-- Byte-order comparison of character lists, used to sort manifests. -/
def charListLt : List Char → List Char → Bool
  | [], [] => false
  | [], _ :: _ => true
  | _ :: _, [] => false
  | a :: as, b :: bs =>
    if a.toNat < b.toNat then true
    else if b.toNat < a.toNat then false
    else charListLt as bs

/-- Byte-order comparison of strings. -/
def strLtB (a b : String) : Bool := charListLt a.data b.data

/-- Join path segments with the canonical separator. -/
def joinPath (p : RPath) : String := String.intercalate "/" p

/-- Modelled from the spec: the MD5 content-hash oracle.  The hashing
primitive itself is an external library; it is modelled as a finite table
over the contents and canonical manifest serializations that appear in the
unit-test scenarios, with all digests taken verbatim from the tests, and an
injective tagging fallback elsewhere. -/
def md5 : String → String
  | "foo" => "acbd18db4cc2f85cedef654fccc4a4d8"
  | "bar" => "37b51d194a7513e45b56f6524f2d51f2"
  | "baz" => "73feffa4b7f6bb68e44cf984c85f6e88"
  | "data" => "8d777f385d3dfec8815d20f7496026dc"
  | "file" => "8c7dd922ad47494fc02c388e12c00eac"
  | "something" => "437b930db84b8079c2dd804a71936b5f"
  | "bar=37b51d194a7513e45b56f6524f2d51f2\nfoo=acbd18db4cc2f85cedef654fccc4a4d8\nsubdir/data=8d777f385d3dfec8815d20f7496026dc\n" =>
      "8761c4e9acad696bee718615e23e22db"
  | "data=8d777f385d3dfec8815d20f7496026dc\n" =>
      "af314506f1622d107e0ed3f14ec1a3b5"
  | "bar=37b51d194a7513e45b56f6524f2d51f2\nfoo=acbd18db4cc2f85cedef654fccc4a4d8\n" =>
      "5ea40360f5b4ec688df672a4db9c17d1"
  | "bar=37b51d194a7513e45b56f6524f2d51f2\nbaz=73feffa4b7f6bb68e44cf984c85f6e88\nfoo=acbd18db4cc2f85cedef654fccc4a4d8\n" =>
      "ba75a2162ca9c29acecb7957105a0bc2"
  | s => "u" ++ s

/-- Insert a manifest entry keeping the list sorted by joined relpath. -/
def insEntry (e : RPath × String) : List (RPath × String) → List (RPath × String)
  | [] => [e]
  | f :: fs => if strLtB (joinPath f.1) (joinPath e.1) then f :: insEntry e fs else e :: f :: fs

/-- Sort manifest entries by joined relpath (insertion sort). -/
def sortEntries : List (RPath × String) → List (RPath × String)
  | [] => []
  | e :: es => insEntry e (sortEntries es)

/-- Modelled from the spec: canonical serialization of a directory manifest,
the sorted list of relpath/digest lines that is hashed to produce the
directory digest. -/
def serializeManifest (es : List (RPath × String)) : String :=
  (sortEntries es).foldl (fun acc e => acc ++ joinPath e.1 ++ "=" ++ e.2 ++ "\n") ""

/-- Modelled from the spec: a directory digest is the hash of the canonical
serialization of its manifest. -/
def dirDigest (es : List (RPath × String)) : String := md5 (serializeManifest es)

/-- A recorded hash: either a file (leaf) digest, or a directory record
carrying its stored digest and the flat manifest of file relpaths. -/
inductive HashRec where
  | file (digest : String)
  | tree (digest : String) (entries : List (RPath × String))
deriving DecidableEq

/-- Errors surfaced by the filesystem views. -/
inductive HErr where
  | notFound
  | objectMissing
  | outOfFuel
deriving DecidableEq

/-- Modelled from the spec: one repository's state as the composite view sees
it — the real working directory (a flat list of files with their current
bytes), the committed metadata (directly tracked paths with their recorded
hashes), and the content-addressable object store (digest to bytes). -/
structure Repo where
  workspace : List (RPath × String)
  outs : List (RPath × HashRec)
  store : List (String × String)
deriving DecidableEq

/-- Bytes of the working-directory file at a path, if present. -/
def wsFile (r : Repo) (p : RPath) : Option String :=
  (r.workspace.find? (fun e => decide (e.1 = p))).map (·.2)

/-- Whether a path is a working-directory directory (a proper ancestor of
some working-directory file). -/
def wsDir (r : Repo) (p : RPath) : Bool :=
  r.workspace.any (fun e => pfx p e.1 && decide (p ≠ e.1))

/-- Whether the path exists in the working directory. -/
def wsExists (r : Repo) (p : RPath) : Bool :=
  (wsFile r p).isSome || wsDir r p

/-- Strict ancestors of a path. -/
def strictAncestors (p : RPath) : List RPath := p.inits.dropLast

/-- Whether some strict ancestor of the path is a working-directory file,
which shadows any recorded entry below it. -/
def wsBlocked (r : Repo) (p : RPath) : Bool :=
  (strictAncestors p).any (fun a => (wsFile r a).isSome)

/-- Resolution of a path in the tracked-only view. -/
inductive DvcNode where
  | dfile (digest : String)
  | ddir (recorded : Option String)
deriving DecidableEq

/-- Modelled from the spec: resolve a path purely from recorded metadata.
A path is a file if it is a tracked file or an exact manifest entry of a
tracked directory; it is a directory if it is a tracked directory (carrying
its stored digest), a strict prefix of a manifest entry, or a strict
ancestor of a tracked path.  The working directory is never consulted. -/
def dvcResolve (outs : List (RPath × HashRec)) (p : RPath) : Option DvcNode :=
  outs.findSome? (fun o =>
    if o.1 = p then
      match o.2 with
      | .file d => some (.dfile d)
      | .tree dg _ => some (.ddir (some dg))
    else if pfx o.1 p then
      match o.2 with
      | .file _ => none
      | .tree _ es =>
        let s := p.drop o.1.length
        match es.find? (fun e => decide (e.1 = s)) with
        | some e => some (.dfile e.2)
        | none =>
          if es.any (fun e => pfx s e.1 && decide (s ≠ e.1)) then some (.ddir none) else none
    else if pfx p o.1 then some (.ddir none)
    else none)

/-- Look a digest up in the object store. -/
def storeLookup (store : List (String × String)) (d : String) : Option String :=
  (store.find? (fun e => decide (e.1 = d))).map (·.2)

/-- Tracked-only view: existence. -/
def dvcExists (r : Repo) (p : RPath) : Bool :=
  (dvcResolve r.outs p).isSome

/-- Tracked-only view: file test. -/
def dvcIsfile (r : Repo) (p : RPath) : Bool :=
  match dvcResolve r.outs p with
  | some (.dfile _) => true
  | _ => false

/-- Tracked-only view: directory test. -/
def dvcIsdir (r : Repo) (p : RPath) : Bool :=
  match dvcResolve r.outs p with
  | some (.ddir _) => true
  | _ => false

/-- Modelled from the spec: tracked-only open resolves the recorded leaf
digest and reads the object store; it fails with NotFound when the path has
no recorded leaf and with ObjectMissing when the blob is absent. -/
def dvcOpen (r : Repo) (p : RPath) : Except HErr String :=
  match dvcResolve r.outs p with
  | some (.dfile d) =>
    match storeLookup r.store d with
    | some c => .ok c
    | none => .error .objectMissing
  | _ => .error .notFound

/-- Modelled from the spec: the hash the tracked-only view already knows for
a path without any hashing work — the recorded leaf digest, or the stored
directory digest (suffixed per the directory hash convention). -/
def dvcInfoHash (outs : List (RPath × HashRec)) (p : RPath) : Option String :=
  match dvcResolve outs p with
  | some (.dfile d) => some d
  | some (.ddir (some dg)) => some (dg ++ ".dir")
  | _ => none

/-- Immediate child names a directory gets from the working directory. -/
def wsChildNames (ws : List (RPath × String)) (p : RPath) : List String :=
  ws.filterMap (fun e => if pfx p e.1 && decide (p ≠ e.1) then e.1[p.length]? else none)

/-- Immediate child names a directory gets from recorded metadata: next
segments of tracked paths below it and of manifest entries inside it. -/
def dvcChildNames (outs : List (RPath × HashRec)) (p : RPath) : List String :=
  outs.flatMap (fun o =>
    if pfx o.1 p then
      match o.2 with
      | .file _ => []
      | .tree _ es =>
        let s := p.drop o.1.length
        es.filterMap (fun e => if pfx s e.1 && decide (s ≠ e.1) then e.1[s.length]? else none)
    else if pfx p o.1 && decide (p ≠ o.1) then (o.1[p.length]?).toList
    else [])

/-- Modelled from the spec: the merged, de-duplicated directory listing of
the composite view, combining working-directory and tracked entries. -/
def childNames (r : Repo) (p : RPath) : List String :=
  (wsChildNames r.workspace p ++ dvcChildNames r.outs p).dedup

/-- Modelled from the spec: type of a path under the composite view, top
layer first — a working-directory file wins, then a working-directory
directory, then (unless shadowed by a working-directory file at an ancestor)
the tracked-only resolution.  `some true` is a file, `some false` a
directory, `none` absent. -/
def mergedNode (r : Repo) (p : RPath) : Option Bool :=
  match wsFile r p with
  | some _ => some true
  | none =>
    if wsDir r p then some false
    else if wsBlocked r p then none
    else
      match dvcResolve r.outs p with
      | some (.dfile _) => some true
      | some (.ddir _) => some false
      | none => none

/-- Composite view: existence. -/
def repoExists (r : Repo) (p : RPath) : Bool :=
  (mergedNode r p).isSome

/-- Composite view: file test. -/
def repoIsfile (r : Repo) (p : RPath) : Bool :=
  match mergedNode r p with
  | some true => true
  | _ => false

/-- Composite view: directory test. -/
def repoIsdir (r : Repo) (p : RPath) : Bool :=
  match mergedNode r p with
  | some false => true
  | _ => false

/-- Modelled from the spec: composite open — current working-directory bytes
when present, otherwise fall back to the tracked-only view. -/
def repoOpen (r : Repo) (p : RPath) : Except HErr String :=
  match wsFile r p with
  | some c => .ok c
  | none =>
    if wsDir r p || wsBlocked r p then .error .notFound
    else dvcOpen r p

/-- Modelled from the spec: the hash the composite view's `info` reports.
It is present only when the path is absent from the working directory and
fully resolved via the tracked-only view; `info` never hashes content. -/
def repoInfoHash (r : Repo) (p : RPath) : Option String :=
  if wsExists r p || wsBlocked r p then none
  else dvcInfoHash r.outs p

/-- Modelled from the spec: hash one file under the composite view,
returning the digest and the number of content-hash computations performed.
A recorded hash is returned as-is when the working copy is absent or clean
(bytes equal to the committed blob, detected via the size/mtime memo);
otherwise the current bytes are hashed. -/
def stageFile (r : Repo) (p : RPath) : String × Nat :=
  match wsFile r p with
  | some c =>
    match dvcResolve r.outs p with
    | some (.dfile d) =>
      if storeLookup r.store d = some c then (d, 0) else (md5 c, 1)
    | _ => (md5 c, 1)
  | none =>
    match dvcResolve r.outs p with
    | some (.dfile d) => (d, 0)
    | _ => ("", 0)

/-- Modelled from the spec: recursively stage the children of a directory
under the composite view, producing the flat manifest (relpaths with
digests) and the total number of content-hash computations.  Fuel bounds the
recursion; any fuel at least the total number of reachable entries
suffices. -/
def stageCh (r : Repo) : Nat → RPath → List String → Except HErr (List (RPath × String) × Nat)
  | 0, _, _ => .error .outOfFuel
  | _ + 1, _, [] => .ok ([], 0)
  | f + 1, p, n :: ns =>
    let cp := p ++ [n]
    match mergedNode r cp with
    | some true =>
      let fd := stageFile r cp
      match stageCh r f p ns with
      | .ok (es, w) => .ok (([n], fd.1) :: es, fd.2 + w)
      | .error e => .error e
    | some false =>
      match stageCh r f cp (childNames r cp) with
      | .ok (cs, w1) =>
        match stageCh r f p ns with
        | .ok (es, w2) => .ok (cs.map (fun e => (n :: e.1, e.2)) ++ es, w1 + w2)
        | .error e => .error e
      | .error e => .error e
    | none => stageCh r f p ns

/-- Result of `get_hash`: the digest, whether it is a directory record, the
recorded file count for directories, and the number of content-hash
computations that were needed. -/
structure GetHashResult where
  digest : String
  isdir : Bool
  nfiles : Option Nat
  work : Nat
deriving DecidableEq

/-- Modelled from the spec: `get_hash` over the composite view.  Files take
the clean short-circuit or hash the current bytes; directories stage the
merged listing and hash the canonical manifest serialization. -/
def repoGetHash (r : Repo) (fuel : Nat) (p : RPath) : Except HErr GetHashResult :=
  match mergedNode r p with
  | none => .error .notFound
  | some true =>
    let fd := stageFile r p
    .ok { digest := fd.1, isdir := false, nfiles := none, work := fd.2 }
  | some false =>
    match stageCh r fuel p (childNames r p) with
    | .ok (es, w) =>
      .ok { digest := dirDigest es, isdir := true, nfiles := some es.length, work := w }
    | .error e => .error e

/-- Modelled from the spec and the unit tests: `is_tracked` (`isdvc`).  By
default it is true only when the path itself has a recorded entry; with
`recursive` it also accepts paths whose recorded entry sits at an ancestor.
Only committed metadata is consulted, never the working copy. -/
def isdvc (r : Repo) (p : RPath) (recursive : Bool) : Bool :=
  if recursive then r.outs.any (fun o => pfx o.1 p)
  else r.outs.any (fun o => decide (o.1 = p))

/-- Delete a path from the working directory. -/
def rmWs (r : Repo) (p : RPath) : Repo :=
  { r with workspace := r.workspace.filter (fun e => decide (e.1 ≠ p)) }

/-- Test scenario: file `foo` with content `"foo"` tracked, then deleted
from the workspace (the blob remains in the object store). -/
def fooRepo : Repo :=
  ⟨[], [(["foo"], .file "acbd18db4cc2f85cedef654fccc4a4d8")],
   [("acbd18db4cc2f85cedef654fccc4a4d8", "foo")]⟩

/-- Test scenario: tracked file `file` whose working copy was modified from
`"file"` to `"something"`. -/
def fileRepo : Repo :=
  ⟨[(["file"], "something")], [(["file"], .file "8c7dd922ad47494fc02c388e12c00eac")],
   [("8c7dd922ad47494fc02c388e12c00eac", "file")]⟩

/-- Test scenario: tracked directory `dir` containing `foo`, `bar` and
`subdir/data`, with a clean working copy. -/
def dirRepo : Repo :=
  ⟨[(["dir", "foo"], "foo"), (["dir", "bar"], "bar"), (["dir", "subdir", "data"], "data")],
   [(["dir"], .tree "8761c4e9acad696bee718615e23e22db"
      [(["bar"], "37b51d194a7513e45b56f6524f2d51f2"),
       (["foo"], "acbd18db4cc2f85cedef654fccc4a4d8"),
       (["subdir", "data"], "8d777f385d3dfec8815d20f7496026dc")])],
   [("acbd18db4cc2f85cedef654fccc4a4d8", "foo"),
    ("37b51d194a7513e45b56f6524f2d51f2", "bar"),
    ("8d777f385d3dfec8815d20f7496026dc", "data")]⟩

/-- Test scenario: `dirRepo` after the whole working copy of the directory
was removed. -/
def dirRepoGone : Repo := { dirRepo with workspace := [] }

/-- Test scenario: tracked directory `dir` containing `foo` and `bar`, with
an untracked file `baz` added to the working copy. -/
def dirtyDirRepo : Repo :=
  ⟨[(["dir", "foo"], "foo"), (["dir", "bar"], "bar"), (["dir", "baz"], "baz")],
   [(["dir"], .tree "5ea40360f5b4ec688df672a4db9c17d1"
      [(["bar"], "37b51d194a7513e45b56f6524f2d51f2"),
       (["foo"], "acbd18db4cc2f85cedef654fccc4a4d8")])],
   [("acbd18db4cc2f85cedef654fccc4a4d8", "foo"),
    ("37b51d194a7513e45b56f6524f2d51f2", "bar")]⟩

/-- Test scenario: directory `dir` added as a single tracked entry whose
manifest contains `baz`; `dir/baz` itself is not a directly recorded path. -/
def granularRepo : Repo :=
  ⟨[(["dir", "baz"], "baz")],
   [(["dir"], .tree "u0" [(["baz"], "73feffa4b7f6bb68e44cf984c85f6e88")])],
   [("73feffa4b7f6bb68e44cf984c85f6e88", "baz")]⟩

/-!
Sub-repository traversal model.  A walked tree is flattened to the list of
its nodes, each a path paired with a flag marking it as the root of a nested
repository.  During a drain of the walk every visited path asks the registry
for its owning repository context (the deepest sub-repository boundary at or
above it); the registry memoizes constructed contexts by boundary path and
invokes the repository factory only on a miss.
-/

/-- A node visited by the walk: its path and whether it is the root of a
nested sub-repository. -/
abbrev WalkNode := RPath × Bool

/-- Boundary paths of the sub-repositories in a walked tree. -/
def markersOf (ns : List WalkNode) : List RPath := (ns.filter (·.2)).map (·.1)

/-- Keep the longer of a candidate path and an accumulator. -/
def pickLonger (q : RPath) : Option RPath → Option RPath
  | none => some q
  | some a => if a.length < q.length then some q else some a

/-- Longest path in a list, if any. -/
def longest : List RPath → Option RPath
  | [] => none
  | q :: qs => pickLonger q (longest qs)

/-- Modelled from the spec: the sub-repository boundary owning a path — the
deepest marked ancestor-or-self. -/
def ownerOf (marks : List RPath) (p : RPath) : Option RPath :=
  longest (marks.filter (fun m => pfx m p))

/-- Modelled from the spec: the sequence of boundary-context requests issued
while draining a recursive walk — one lookup per visited path that is owned
by some sub-repository (the same boundary is requested many times). -/
def walkRequests (ns : List WalkNode) : List RPath :=
  ns.filterMap (fun n => ownerOf (markersOf ns) n.1)

/-- Modelled from the spec: the sub-repository registry — the boundary paths
whose context has been constructed, and how many times the repository
factory has been invoked. -/
structure Registry where
  cache : List RPath
  calls : Nat
deriving DecidableEq

/-- Modelled from the spec: memoized context lookup.  A cached boundary is
returned as-is; a miss constructs the context (one factory call) and caches
it. -/
def getRepo (reg : Registry) (k : RPath) : Registry :=
  if k ∈ reg.cache then reg else { cache := k :: reg.cache, calls := reg.calls + 1 }

/-- Run the registry over a request sequence, starting empty. -/
def runRegistry (ks : List RPath) : Registry := ks.foldl getRepo ⟨[], 0⟩

/-- Modelled from the spec and the unit tests: whether a path is hidden from
a walk with sub-repository traversal disabled — everything at or below a
sub-repository boundary is. -/
def hiddenBySubrepo (marks : List RPath) (p : RPath) : Bool :=
  marks.any (fun m => pfx m p)

/-- Modelled from the spec and the unit tests: the paths a walk yields.
With traversal enabled every node is yielded; with it disabled the nodes at
or below a sub-repository boundary are omitted. -/
def walkEntries (recurse : Bool) (ns : List WalkNode) : List RPath :=
  ns.filterMap (fun n =>
    if recurse || !hiddenBySubrepo (markersOf ns) n.1 then some n.1 else none)

/-- Test scenario for traversal: a parent directory holding a plain file and
a sub-repository `dir/repo` that contains a file. -/
def walkTree : List WalkNode :=
  [(["dir"], false), (["dir", "repo.txt"], false),
   (["dir", "repo"], true), (["dir", "repo", "foo"], false)]

/-- Test scenario for the registry: a tree with three sub-repositories (one
nested) and several files inside each, so every boundary is requested more
than once during the drain. -/
def hookTree : List WalkNode :=
  [(["a"], false),
   (["sub1"], true), (["sub1", "f1"], false), (["sub1", "f2"], false),
   (["sub1", "sub3"], true), (["sub1", "sub3", "g"], false),
   (["sub2"], true), (["sub2", "h"], false)]

/-!
Import-stage update, embedded from `dvc/stage/imports.py`.  The stage state
is reduced to the fields the routine touches; the reproduction and remote
transfer bodies are arbitrary state transformers that may raise, and the
dependency update may raise before the frozen flag is saved.
-/

/-- The mutable stage state `update_import` operates on: the frozen flag and
the revision its first dependency points at. -/
structure Stage where
  frozen : Bool
  dep_rev : Option String
deriving DecidableEq

/-- Embedded from `dvc/stage/imports.py` (`update_import`): update the first
dependency, save and clear `frozen`, run the body (remote transfer when
`to_remote`, reproduction otherwise), and restore `frozen` in a `finally`
block.  An exception is a `some` in the second component; `dep_fail` models
the dependency update itself raising, before `frozen` is saved. -/
def update_import (dep_fail : Option String)
    (reproduce transfer : Stage → Stage × Option String)
    (stage : Stage) (rev : Option String) (to_remote : Bool) :
    Stage × Option String :=
  let s1 : Stage := { stage with dep_rev := rev }
  match dep_fail with
  | some e => (s1, some e)
  | none =>
    let frozen := s1.frozen
    let s2 : Stage := { s1 with frozen := false }
    let b := if to_remote then transfer s2 else reproduce s2
    ({ b.1 with frozen := frozen }, b.2)

/-- C3: for the tracked directory `dir` containing exactly `foo="foo"`,
`bar="bar"` and `subdir/data="data"`, `get_hash(dir)` returns the directory
record with digest `8761c4e9acad696bee718615e23e22db` and a file count of 3,
performs zero content-hash computations, and the same result still holds
after the working copy of the directory is removed. -/
theorem get_hash_cached_dir_no_rehash :
    repoGetHash dirRepo 20 ["dir"] =
      .ok { digest := "8761c4e9acad696bee718615e23e22db", isdir := true,
            nfiles := some 3, work := 0 } ∧
    repoGetHash dirRepoGone 20 ["dir"] =
      .ok { digest := "8761c4e9acad696bee718615e23e22db", isdir := true,
            nfiles := some 3, work := 0 } :=
  ⟨rfl, rfl⟩

/-- C4: with the untracked file `dir/baz="baz"` added to the workspace of
the tracked directory `dir` (recorded clean digest
`5ea40360f5b4ec688df672a4db9c17d1`), `get_hash(dir)` includes the untracked
file in the merged listing and returns a different digest with a file count
of 3. -/
theorem get_hash_dirty_dir_includes_untracked :
    repoGetHash dirtyDirRepo 20 ["dir"] =
      .ok { digest := "ba75a2162ca9c29acecb7957105a0bc2", isdir := true,
            nfiles := some 3, work := 1 } ∧
    dvcInfoHash dirtyDirRepo.outs ["dir"] =
      some "5ea40360f5b4ec688df672a4db9c17d1.dir" ∧
    "ba75a2162ca9c29acecb7957105a0bc2" ≠ "5ea40360f5b4ec688df672a4db9c17d1" :=
  ⟨rfl, rfl, by decide⟩

/-- C10: `update_import` leaves `stage.frozen` equal to its value before the
call on every exit path — whether the dependency update raises, the body is
the remote transfer or the reproduction, and whether that body raises or
not — because the flag is cleared only for the duration of the update and
restored in a `finally` block. -/
theorem update_import_preserves_frozen
    (dep_fail : Option String) (reproduce transfer : Stage → Stage × Option String)
    (stage : Stage) (rev : Option String) (to_remote : Bool) :
    (update_import dep_fail reproduce transfer stage rev to_remote).1.frozen =
      stage.frozen := by
  unfold update_import
  cases dep_fail with
  | some e => rfl
  | none => cases to_remote <;> rfl

/-- C1: a tracked file deleted from the workspace but recorded in the cache
is still visible through the composite view: it exists, opens to the
committed content, and `info` reports the recorded hash. -/
theorem repo_fs_deleted_tracked_file_visible (r : Repo) (p : RPath) (d c : String)
    (hres : dvcResolve r.outs p = some (.dfile d))
    (hws : wsFile r p = none) (hdir : wsDir r p = false) (hblk : wsBlocked r p = false)
    (hstore : storeLookup r.store d = some c) :
    repoExists r p = true ∧ repoOpen r p = .ok c ∧ repoInfoHash r p = some d := by
  refine ⟨?_, ?_, ?_⟩
  · simp [repoExists, mergedNode, hws, hdir, hblk, hres]
  · simp [repoOpen, hws, hdir, hblk, dvcOpen, hres, hstore]
  · simp [repoInfoHash, wsExists, hws, hdir, hblk, dvcInfoHash, hres]

/-- C1 witness: the concrete scenario — tracked `foo` with content `"foo"`
deleted from the workspace: it exists, opens to `"foo"`, and `info` reports
`acbd18db4cc2f85cedef654fccc4a4d8`. -/
theorem repo_fs_deleted_tracked_file_visible_witness :
    repoExists fooRepo ["foo"] = true ∧ repoOpen fooRepo ["foo"] = .ok "foo" ∧
      repoInfoHash fooRepo ["foo"] = some "acbd18db4cc2f85cedef654fccc4a4d8" :=
  repo_fs_deleted_tracked_file_visible fooRepo ["foo"] _ _ rfl rfl rfl rfl rfl

theorem wsFile_rmWs_self (r : Repo) (p : RPath) : wsFile (rmWs r p) p = none := by
  have h : (r.workspace.filter (fun e => decide (e.1 ≠ p))).find?
      (fun e => decide (e.1 = p)) = none := by
    rw [List.find?_eq_none]
    intro x hx
    have hne := (List.mem_filter.mp hx).2
    simp only [decide_eq_true_eq] at hne ⊢
    exact hne
  simp [wsFile, rmWs, h]

theorem wsDir_rmWs (r : Repo) (p q : RPath) (h : wsDir r p = false) :
    wsDir (rmWs r q) p = false := by
  unfold wsDir rmWs at *
  rw [List.any_eq_false] at h ⊢
  intro x hx
  exact h x (List.mem_of_mem_filter hx)

theorem wsFile_isSome_of_rmWs (r : Repo) (q a : RPath)
    (h : (wsFile (rmWs r q) a).isSome = true) : (wsFile r a).isSome = true := by
  unfold wsFile rmWs at *
  rw [Option.isSome_map'] at h ⊢
  rw [List.find?_isSome] at h ⊢
  obtain ⟨x, hx, hpx⟩ := h
  exact ⟨x, List.mem_of_mem_filter hx, hpx⟩

theorem wsBlocked_rmWs (r : Repo) (p q : RPath) (h : wsBlocked r p = false) :
    wsBlocked (rmWs r q) p = false := by
  unfold wsBlocked at *
  rw [List.any_eq_false] at h ⊢
  intro a ha
  have hr := h a ha
  simp only [Bool.not_eq_true] at hr ⊢
  cases hs : (wsFile (rmWs r q) a).isSome with
  | false => rfl
  | true => exact absurd (wsFile_isSome_of_rmWs r q a hs) (by simp [hr])

/-- C2: for a tracked file with recorded hash `d` whose working copy holds
different bytes `c`, `get_hash` returns the hash of the current bytes (one
content hashing), not `d`; after the working copy is deleted again,
`get_hash` returns the recorded `d` with no hashing work. -/
theorem get_hash_dirty_then_deleted (r : Repo) (p : RPath) (d c c0 : String)
    (hres : dvcResolve r.outs p = some (.dfile d))
    (hws : wsFile r p = some c)
    (hdir : wsDir r p = false) (hblk : wsBlocked r p = false)
    (hstore : storeLookup r.store d = some c0)
    (hmod : c ≠ c0) (hneq : md5 c ≠ d) (fuel : Nat) :
    repoGetHash r fuel p = .ok ⟨md5 c, false, none, 1⟩ ∧
    repoGetHash (rmWs r p) fuel p = .ok ⟨d, false, none, 0⟩ ∧
    md5 c ≠ d := by
  have houts : (rmWs r p).outs = r.outs := rfl
  have hstore2 : (rmWs r p).store = r.store := rfl
  refine ⟨?_, ?_, hneq⟩
  · simp [repoGetHash, mergedNode, hws, stageFile, hres, hstore, Ne.symm hmod]
  · simp [repoGetHash, mergedNode, wsFile_rmWs_self, wsDir_rmWs r p p hdir,
      wsBlocked_rmWs r p p hblk, houts, hres, stageFile]

/-- C2 witness: the concrete scenario — tracked `file` (recorded hash of
`"file"`) modified on disk to `"something"`: `get_hash` returns the hash of
`"something"`; after deleting the working copy it returns the recorded
`8c7dd922ad47494fc02c388e12c00eac`. -/
theorem get_hash_dirty_then_deleted_witness :
    repoGetHash fileRepo 20 ["file"] = .ok ⟨md5 "something", false, none, 1⟩ ∧
    repoGetHash (rmWs fileRepo ["file"]) 20 ["file"] =
      .ok ⟨"8c7dd922ad47494fc02c388e12c00eac", false, none, 0⟩ ∧
    md5 "something" ≠ "8c7dd922ad47494fc02c388e12c00eac" :=
  get_hash_dirty_then_deleted fileRepo ["file"] "8c7dd922ad47494fc02c388e12c00eac"
    "something" "file" rfl rfl rfl rfl rfl (by decide) (by decide) 20

/-- C5: whenever the composite view's `info` reports a content hash, the
path is absent from the working directory (hence `Clean` against its
record) and the hash is exactly the one the tracked-only view already
records — `info` performs no hash computation; only `get_hash` may. -/
theorem info_hash_only_when_known (r : Repo) (p : RPath) (d : String)
    (h : repoInfoHash r p = some d) :
    wsExists r p = false ∧ dvcInfoHash r.outs p = some d := by
  unfold repoInfoHash at h
  split at h
  · exact absurd h (by simp)
  · rename_i hc
    simp only [Bool.or_eq_true, not_or, Bool.not_eq_true] at hc
    exact ⟨hc.1, h⟩

/-- C5 witness: for the deleted tracked file `foo`, `info` reports the
recorded hash, the working copy is absent, and the hash is the one recorded
by the tracked-only view. -/
theorem info_hash_only_when_known_witness :
    wsExists fooRepo ["foo"] = false ∧
      dvcInfoHash fooRepo.outs ["foo"] = some "acbd18db4cc2f85cedef654fccc4a4d8" :=
  info_hash_only_when_known fooRepo ["foo"] _ rfl

/-- C6: the tracked-only view resolves `exists`/`is_dir`/`is_file`/`open`
purely from recorded metadata: its answers are identical under any two
working directories; a tracked file opens to the committed bytes whatever
the workspace holds; and a path absent from the records does not exist in
this view — it is neither file nor directory and `open` fails NotFound. -/
theorem dvc_fs_tracked_only (ws ws2 : List (RPath × String))
    (outs : List (RPath × HashRec)) (store : List (String × String)) (p : RPath) :
    (dvcExists ⟨ws, outs, store⟩ p = dvcExists ⟨ws2, outs, store⟩ p ∧
     dvcIsdir ⟨ws, outs, store⟩ p = dvcIsdir ⟨ws2, outs, store⟩ p ∧
     dvcIsfile ⟨ws, outs, store⟩ p = dvcIsfile ⟨ws2, outs, store⟩ p ∧
     dvcOpen ⟨ws, outs, store⟩ p = dvcOpen ⟨ws2, outs, store⟩ p) ∧
    (∀ d c, dvcResolve outs p = some (.dfile d) → storeLookup store d = some c →
      dvcOpen ⟨ws, outs, store⟩ p = .ok c) ∧
    (dvcResolve outs p = none →
      dvcExists ⟨ws, outs, store⟩ p = false ∧ dvcIsdir ⟨ws, outs, store⟩ p = false ∧
      dvcIsfile ⟨ws, outs, store⟩ p = false ∧
      dvcOpen ⟨ws, outs, store⟩ p = .error .notFound) := by
  refine ⟨⟨rfl, rfl, rfl, rfl⟩, ?_, ?_⟩
  · intro d c hd hc
    simp [dvcOpen, hd, hc]
  · intro h
    simp [dvcExists, dvcIsdir, dvcIsfile, dvcOpen, h]

/-- C6 witness: with the working copy of tracked `file` modified to
`"something"`, the tracked-only view still opens the committed `"file"`,
and an on-disk path absent from the records does not exist in this view. -/
theorem dvc_fs_tracked_only_witness :
    dvcOpen fileRepo ["file"] = .ok "file" ∧ dvcExists fileRepo ["stray"] = false := by
  constructor
  · exact (dvc_fs_tracked_only fileRepo.workspace [] fileRepo.outs
      fileRepo.store ["file"]).2.1 _ _ rfl rfl
  · exact ((dvc_fs_tracked_only fileRepo.workspace [] fileRepo.outs
      fileRepo.store ["stray"]).2.2 rfl).1

/-- C9 counterexample: in the repository where the directory `dir` is the
recorded entry and `baz` only appears inside its manifest, `dir` is an
ancestor of `dir/baz` with a recorded entry, yet `is_tracked` (`isdvc`) on
`dir/baz` returns false by default — the ancestor-inclusive behaviour the
claim states requires the explicit `recursive` flag. -/
theorem isdvc_default_ancestor_cex :
    isdvc granularRepo ["dir", "baz"] false = false ∧
    (["dir"], HashRec.tree "u0" [(["baz"], "73feffa4b7f6bb68e44cf984c85f6e88")])
      ∈ granularRepo.outs ∧
    pfx ["dir"] ["dir", "baz"] = true ∧
    isdvc granularRepo ["dir", "baz"] true = true := by
  refine ⟨rfl, ?_, rfl, rfl⟩
  simp [granularRepo]

/-- C9 amended: `is_tracked` (`isdvc`) consults only the committed records,
never the working copy; by default it is true exactly when the path itself
has a recorded entry, and with `recursive` it is true exactly when the path
or an ancestor directory has one. -/
theorem isdvc_spec (r : Repo) (p : RPath) :
    (isdvc r p false = true ↔ ∃ rec, (p, rec) ∈ r.outs) ∧
    (isdvc r p true = true ↔ ∃ q rec, (q, rec) ∈ r.outs ∧ pfx q p = true) := by
  constructor
  · simp only [isdvc, Bool.false_eq_true, if_false, List.any_eq_true, decide_eq_true_eq]
    constructor
    · rintro ⟨⟨q, rec⟩, ho, he⟩
      subst he
      exact ⟨rec, ho⟩
    · rintro ⟨rec, hrec⟩
      exact ⟨(p, rec), hrec, rfl⟩
  · simp only [isdvc, if_true, List.any_eq_true]
    constructor
    · rintro ⟨⟨q, rec⟩, ho, hp⟩
      exact ⟨q, rec, ho, hp⟩
    · rintro ⟨q, rec, ho, hp⟩
      exact ⟨(q, rec), ho, hp⟩

/-- C8 counterexample: with sub-repository traversal disabled, the
sub-repository root `dir/repo` is not yielded by the walk at all (the claim
states it is yielded as an opaque directory), even though it is a node of
the walked tree and is yielded when traversal is enabled. -/
theorem walk_norecurse_subrepo_root_cex :
    (["dir", "repo"], true) ∈ walkTree ∧
    (["dir", "repo"] : RPath) ∉ walkEntries false walkTree ∧
    (["dir", "repo"] : RPath) ∈ walkEntries true walkTree := by
  decide

/-- C8 amended: when the walk runs with sub-repository traversal disabled,
every sub-repository root is hidden entirely — neither the root nor
anything beneath it is yielded (so the walk does not descend into it) —
while every node not under a sub-repository boundary is still yielded. -/
theorem walk_norecurse_hides_subrepos (ns : List WalkNode) (p : RPath) :
    ((∃ m ∈ markersOf ns, pfx m p = true) → p ∉ walkEntries false ns) ∧
    (∀ b, (p, b) ∈ ns → (∀ m ∈ markersOf ns, pfx m p = false) →
      p ∈ walkEntries false ns) := by
  constructor
  · rintro ⟨m, hm, hpfx⟩ hmem
    unfold walkEntries at hmem
    rw [List.mem_filterMap] at hmem
    obtain ⟨n, hn, he⟩ := hmem
    have hhid : hiddenBySubrepo (markersOf ns) p = true := by
      unfold hiddenBySubrepo
      rw [List.any_eq_true]
      exact ⟨m, hm, hpfx⟩
    by_cases hh : hiddenBySubrepo (markersOf ns) n.1 = true
    · simp [hh] at he
    · rw [Bool.not_eq_true] at hh
      simp [hh] at he
      rw [he] at hh
      rw [hhid] at hh
      simp at hh
  · intro b hb hall
    unfold walkEntries
    rw [List.mem_filterMap]
    refine ⟨(p, b), hb, ?_⟩
    have hh : hiddenBySubrepo (markersOf ns) p = false := by
      unfold hiddenBySubrepo
      rw [List.any_eq_false]
      intro m hm
      simp [hall m hm]
    simp [hh]

/-- C8 amended witness: in the concrete tree, the file inside the
sub-repository is not yielded by the no-traversal walk, while the sibling
plain file is. -/
theorem walk_norecurse_hides_subrepos_witness :
    (["dir", "repo", "foo"] : RPath) ∉ walkEntries false walkTree ∧
    (["dir", "repo.txt"] : RPath) ∈ walkEntries false walkTree := by
  constructor
  · exact (walk_norecurse_hides_subrepos walkTree ["dir", "repo", "foo"]).1
      ⟨["dir", "repo"], by decide, by decide⟩
  · exact (walk_norecurse_hides_subrepos walkTree ["dir", "repo.txt"]).2
      false (by decide) (by decide)

theorem regFold_calls (ks : List RPath) (reg : Registry) (h : reg.calls = reg.cache.length) :
    (ks.foldl getRepo reg).calls = (ks.foldl getRepo reg).cache.length := by
  induction ks generalizing reg with
  | nil => simpa using h
  | cons k ks ih =>
    rw [List.foldl_cons]
    apply ih
    unfold getRepo
    split
    · exact h
    · simp [h]

theorem regFold_nodup (ks : List RPath) (reg : Registry) (h : reg.cache.Nodup) :
    (ks.foldl getRepo reg).cache.Nodup := by
  induction ks generalizing reg with
  | nil => simpa using h
  | cons k ks ih =>
    rw [List.foldl_cons]
    apply ih
    unfold getRepo
    split
    · exact h
    · rename_i hk
      exact List.nodup_cons.mpr ⟨hk, h⟩

theorem regFold_mem (ks : List RPath) (reg : Registry) (x : RPath) :
    x ∈ (ks.foldl getRepo reg).cache ↔ x ∈ reg.cache ∨ x ∈ ks := by
  induction ks generalizing reg with
  | nil => simp
  | cons k ks ih =>
    rw [List.foldl_cons, ih]
    unfold getRepo
    split
    · rename_i hk
      constructor
      · rintro (h | h)
        · exact Or.inl h
        · exact Or.inr (List.mem_cons_of_mem k h)
      · rintro (h | h)
        · exact Or.inl h
        · rcases List.mem_cons.mp h with h | h
          · exact Or.inl (h ▸ hk)
          · exact Or.inr h
    · simp only [List.mem_cons]
      tauto

theorem runRegistry_calls_card (ks : List RPath) :
    (runRegistry ks).calls = ks.toFinset.card ∧
      ∀ x, x ∈ (runRegistry ks).cache ↔ x ∈ ks := by
  have hmem : ∀ x, x ∈ (runRegistry ks).cache ↔ x ∈ ks := by
    intro x
    unfold runRegistry
    rw [regFold_mem]
    simp
  have hnd : (runRegistry ks).cache.Nodup := regFold_nodup ks ⟨[], 0⟩ (by simp)
  have hcalls : (runRegistry ks).calls = (runRegistry ks).cache.length :=
    regFold_calls ks ⟨[], 0⟩ rfl
  refine ⟨?_, hmem⟩
  have hset : (runRegistry ks).cache.toFinset = ks.toFinset := by
    ext x
    simp only [List.mem_toFinset]
    exact hmem x
  calc (runRegistry ks).calls = (runRegistry ks).cache.length := hcalls
    _ = (runRegistry ks).cache.dedup.length := by rw [List.dedup_eq_self.mpr hnd]
    _ = (runRegistry ks).cache.toFinset.card := (List.card_toFinset _).symm
    _ = ks.toFinset.card := by rw [hset]

theorem longest_eq_none (L : List RPath) : longest L = none ↔ L = [] := by
  cases L with
  | nil => simp [longest]
  | cons q qs =>
    unfold longest
    cases hq : longest qs with
    | none => simp [pickLonger]
    | some a =>
      simp only [pickLonger]
      by_cases hlt : a.length < q.length
      · rw [if_pos hlt]
        simp
      · rw [if_neg hlt]
        simp

theorem longest_mem (L : List RPath) : ∀ r, longest L = some r → r ∈ L := by
  induction L with
  | nil =>
    intro r h
    simp [longest] at h
  | cons q qs ih =>
    intro r h
    unfold longest at h
    cases hq : longest qs with
    | none =>
      rw [hq] at h
      simp only [pickLonger] at h
      have hqr : q = r := Option.some.inj h
      exact hqr ▸ List.mem_cons_self q qs
    | some a =>
      rw [hq] at h
      simp only [pickLonger] at h
      by_cases hlt : a.length < q.length
      · rw [if_pos hlt] at h
        have hqr : q = r := Option.some.inj h
        exact hqr ▸ List.mem_cons_self q qs
      · rw [if_neg hlt] at h
        have har : a = r := Option.some.inj h
        exact List.mem_cons_of_mem q (har ▸ ih a hq)

theorem longest_max (L : List RPath) : ∀ x r, x ∈ L → longest L = some r →
    x.length ≤ r.length := by
  induction L with
  | nil =>
    intro x r hx _
    simp at hx
  | cons q qs ih =>
    intro x r hx h
    unfold longest at h
    cases hq : longest qs with
    | none =>
      rw [hq] at h
      simp only [pickLonger] at h
      have hqs : qs = [] := (longest_eq_none qs).mp hq
      subst hqs
      have hqr : q = r := Option.some.inj h
      rcases List.mem_cons.mp hx with hxq | hxq
      · rw [hxq, ← hqr]
      · simp at hxq
    | some a =>
      rw [hq] at h
      simp only [pickLonger] at h
      rcases List.mem_cons.mp hx with hxq | hxqs
      · by_cases hlt : a.length < q.length
        · rw [if_pos hlt] at h
          have hqr : q = r := Option.some.inj h
          rw [hxq, ← hqr]
        · rw [if_neg hlt] at h
          have har : a = r := Option.some.inj h
          have hle : q.length ≤ a.length := Nat.le_of_not_lt hlt
          rw [hxq, ← har]
          exact hle
      · have hxa : x.length ≤ a.length := ih x a hxqs hq
        by_cases hlt : a.length < q.length
        · rw [if_pos hlt] at h
          have hqr : q = r := Option.some.inj h
          rw [← hqr]
          omega
        · rw [if_neg hlt] at h
          have har : a = r := Option.some.inj h
          rw [← har]
          exact hxa

theorem ownerOf_mem (marks : List RPath) (p m : RPath) (h : ownerOf marks p = some m) :
    m ∈ marks ∧ pfx m p = true := by
  unfold ownerOf at h
  have hm := longest_mem _ _ h
  have hmf := List.mem_filter.mp hm
  exact ⟨hmf.1, hmf.2⟩

theorem ownerOf_self (marks : List RPath) (m : RPath) (hm : m ∈ marks) :
    ownerOf marks m = some m := by
  unfold ownerOf
  have hmf : m ∈ marks.filter (fun q => pfx q m) :=
    List.mem_filter.mpr ⟨hm, pfx_refl m⟩
  cases hl : longest (marks.filter (fun q => pfx q m)) with
  | none =>
    rw [longest_eq_none] at hl
    rw [hl] at hmf
    simp at hmf
  | some r =>
    have hrmem := longest_mem _ _ hl
    have hrp : pfx r m = true := (List.mem_filter.mp hrmem).2
    have hmax : m.length ≤ r.length := longest_max _ m r hmf hl
    obtain ⟨t, ht⟩ := (pfx_iff r m).mp hrp
    have hlen : r.length + t.length = m.length := by
      rw [← ht, List.length_append]
    have ht0 : t = [] := List.length_eq_zero.mp (by omega)
    subst ht0
    simp at ht
    rw [ht]

theorem mem_walkRequests (ns : List WalkNode) (x : RPath) :
    x ∈ walkRequests ns ↔ x ∈ markersOf ns := by
  unfold walkRequests
  rw [List.mem_filterMap]
  constructor
  · rintro ⟨n, hn, he⟩
    exact (ownerOf_mem _ _ _ he).1
  · intro hx
    unfold markersOf at hx
    rw [List.mem_map] at hx
    obtain ⟨o, ho, he⟩ := hx
    have hmem := List.mem_filter.mp ho
    refine ⟨o, hmem.1, ?_⟩
    rw [he]
    apply ownerOf_self
    unfold markersOf
    rw [List.mem_map]
    exact ⟨o, ho, he⟩

/-- C7: draining a recursive walk requests the owning sub-repository
context for every visited path, yet the registry invokes the repository
factory exactly once per sub-repository boundary path — the number of calls
equals the number of boundaries, and the cache holds exactly the boundary
paths, however many requests revisit each boundary. -/
theorem subrepo_factory_once (ns : List WalkNode) (h : (markersOf ns).Nodup) :
    (runRegistry (walkRequests ns)).calls = (markersOf ns).length ∧
      ∀ x, x ∈ (runRegistry (walkRequests ns)).cache ↔ x ∈ markersOf ns := by
  obtain ⟨hcalls, hmem⟩ := runRegistry_calls_card (walkRequests ns)
  have hset : (walkRequests ns).toFinset = (markersOf ns).toFinset := by
    ext x
    simp only [List.mem_toFinset]
    exact mem_walkRequests ns x
  constructor
  · rw [hcalls, hset, List.card_toFinset, List.dedup_eq_self.mpr h]
  · intro x
    rw [hmem, mem_walkRequests]

/-- C7 witness: the concrete tree with three sub-repositories (one nested)
and several files in each yields exactly three factory calls when the walk
is drained, despite each boundary being requested repeatedly. -/
theorem subrepo_factory_once_witness :
    (markersOf hookTree).Nodup ∧ (runRegistry (walkRequests hookTree)).calls = 3 := by
  constructor
  · decide
  · exact (subrepo_factory_once hookTree (by decide)).1.trans (by decide)

end Dvc
